import Mathlib

/-!
Verification of the aiadvisor decision pipeline and position monitor.

Shallow embedding of the Python sources under `backend/app/`:
`strategy_selector.py`, `quant_engine.py`, `analysis.py`,
`services/universe.py`, `services/options.py`, `watchman.py`.
Decimal arithmetic is modelled exactly: quantities that never meet a square
root live in `ℚ`; the quant engine, whose formulas take square roots, lives
in `ℝ` with explicit round-half-up quantization where the source quantizes.
-/

namespace AiAdvisor

/-! ## strategy_selector.py -/

/-- Trend labels returned by `get_trend_state`. -/
inductive Trend where
  | bullish
  | bearish
  | neutral
  deriving DecidableEq, Repr

/-- RSI labels returned by `get_rsi_state`. -/
inductive RsiState where
  | overbought
  | oversold
  | neutral
  deriving DecidableEq, Repr

/-- Strategy verdicts. -/
inductive Strategy where
  | SHORT_PUT
  | SHORT_CALL
  | NONE
  deriving DecidableEq, Repr

/-- `get_trend_state(price, sma_50, sma_200)` of `strategy_selector.py`:
the bullish and bearish tests run only when both averages are present. -/
def get_trend_state (price : ℚ) (sma_50 sma_200 : Option ℚ) : Trend :=
  match sma_200, sma_50 with
  | some s200, some s50 =>
    if price > s200 ∧ price > s50 then .bullish
    else if price < s50 then .bearish
    else .neutral
  | _, _ => .neutral

/-- `get_rsi_state(rsi_14)` of `strategy_selector.py`. -/
def get_rsi_state (rsi_14 : ℚ) : RsiState :=
  if rsi_14 > 70 then .overbought
  else if rsi_14 < 30 then .oversold
  else .neutral

/-- `select_strategy(trend, rsi_state, regime_allows_short_put)` of
`strategy_selector.py`, with its branches in source order. -/
def select_strategy (trend : Trend) (rsi_state : RsiState)
    (regime_allows_short_put : Bool) : Strategy :=
  if trend = .bearish then .SHORT_CALL
  else if trend = .bullish ∧ rsi_state ≠ .overbought ∧ regime_allows_short_put = true then
    .SHORT_PUT
  else if trend = .neutral ∧ regime_allows_short_put = true ∧ rsi_state = .oversold then
    .SHORT_PUT
  else if trend = .bearish ∧ rsi_state = .overbought then .SHORT_CALL
  else if regime_allows_short_put = true ∧ rsi_state = .oversold then .SHORT_PUT
  else .NONE

/-- The ticker-level trend override of `run_analysis` (`analysis.py` line 67):
`SHORT_PUT` becomes `NONE` when the 50-day average is present and the ticker
price is below it. -/
def strategyOverride (s : Strategy) (price : ℚ) (sma_50 : Option ℚ) : Strategy :=
  if s = .SHORT_PUT ∧ (match sma_50 with
      | some v => decide (price < v)
      | none => false) = true then .NONE
  else s

/-- The efficiency gate of `run_analysis` (`analysis.py` line 70):
`SHORT_PUT` becomes `NONE` when the IV/NATR check did not pass. -/
def strategyGate (s : Strategy) (efficiency_passes : Bool) : Strategy :=
  if s = .SHORT_PUT ∧ efficiency_passes = false then .NONE else s

/-- The strategy-verdict slice of `run_analysis` (`analysis.py` lines 45-71):
trend and RSI classification, table lookup, the ticker-level trend override,
then the efficiency gate.  The boolean `efficiency_passes` is the second
component of `check_iv_natr_rule`, computed by the caller. -/
def analysisStrategy (price : ℚ) (sma_50 sma_200 : Option ℚ) (rsi_14 : ℚ)
    (allows_short_put efficiency_passes : Bool) : Strategy :=
  strategyGate
    (strategyOverride
      (select_strategy (get_trend_state price sma_50 sma_200) (get_rsi_state rsi_14)
        allows_short_put)
      price sma_50)
    efficiency_passes

/-! ### Helper lemmas about the classifier and selector -/

/-- Unfolding `get_trend_state` when both averages are present. -/
theorem get_trend_state_some (price s50 s200 : ℚ) :
    get_trend_state price (some s50) (some s200) =
      if price > s200 ∧ price > s50 then .bullish
      else if price < s50 then .bearish else .neutral := rfl

/-- With both averages present, the trend is bullish iff the price exceeds both. -/
theorem trend_some_bullish {price s50 s200 : ℚ} :
    get_trend_state price (some s50) (some s200) = .bullish ↔
      price > s200 ∧ price > s50 := by
  rw [get_trend_state_some]
  split_ifs with h1 h2
  · exact iff_of_true rfl h1
  · exact iff_of_false (by intro h; cases h) h1
  · exact iff_of_false (by intro h; cases h) h1

/-- With both averages present, the trend is bearish iff the price is below the
50-day average. -/
theorem trend_some_bearish {price s50 s200 : ℚ} :
    get_trend_state price (some s50) (some s200) = .bearish ↔ price < s50 := by
  rw [get_trend_state_some]
  split_ifs with h1 h2
  · exact iff_of_false (by intro h; cases h)
      (fun hlt => absurd h1.2 (not_lt.mpr (le_of_lt hlt)))
  · exact iff_of_true rfl h2
  · exact iff_of_false (by intro h; cases h) h2

/-- A bearish trend short-circuits the decision table to SHORT_CALL. -/
theorem select_strategy_bearish (rsi : RsiState) (b : Bool) :
    select_strategy .bearish rsi b = .SHORT_CALL := by
  unfold select_strategy
  rw [if_pos rfl]

/-- Bullish trend, RSI not overbought and regime permission give SHORT_PUT. -/
theorem select_strategy_bullish (rsi : RsiState) (h : rsi ≠ .overbought) :
    select_strategy .bullish rsi true = .SHORT_PUT := by
  unfold select_strategy
  rw [if_neg (by intro hh; cases hh), if_pos ⟨rfl, h, rfl⟩]

/-- The trend override leaves a SHORT_CALL verdict alone. -/
theorem strategyOverride_short_call (price : ℚ) (m : Option ℚ) :
    strategyOverride .SHORT_CALL price m = .SHORT_CALL := by
  unfold strategyOverride
  rw [if_neg (by intro h; cases h.1)]

/-- The efficiency gate leaves a SHORT_CALL verdict alone. -/
theorem strategyGate_short_call (b : Bool) : strategyGate .SHORT_CALL b = .SHORT_CALL := by
  unfold strategyGate
  rw [if_neg (by intro h; cases h.1)]

/-! ## quant_engine.py

Decimal values are modelled as exact reals; `Decimal.quantize(...,
ROUND_HALF_UP)` is modelled by `rhu`, rounding to `s` decimal places with
ties away from zero. -/

/-- Round-half-up to `s` decimal places (ties away from zero), the rounding
mode `ROUND_HALF_UP` used by `quant_engine.py`. -/
noncomputable def rhu (s : ℕ) (x : ℝ) : ℝ :=
  if 0 ≤ x then (⌊x * 10 ^ s + 1 / 2⌋ : ℝ) / 10 ^ s
  else -((⌊-x * 10 ^ s + 1 / 2⌋ : ℝ) / 10 ^ s)

/-- Round-half-up is (weakly) monotone. -/
theorem rhu_mono (s : ℕ) {x y : ℝ} (h : x ≤ y) : rhu s x ≤ rhu s y := by
  have hp : (0 : ℝ) < 10 ^ s := by positivity
  unfold rhu
  split_ifs with hx hy hy
  · apply (div_le_div_iff_of_pos_right hp).mpr
    exact_mod_cast Int.floor_mono (by nlinarith)
  · exact absurd (le_trans hx h) hy
  · have hxneg : ¬ (0 : ℝ) ≤ x := hx
    have h1 : (0 : ℤ) ≤ ⌊-x * 10 ^ s + 1 / 2⌋ := by
      apply Int.floor_nonneg.mpr
      nlinarith [not_le.mp hxneg]
    have h2 : (0 : ℤ) ≤ ⌊y * 10 ^ s + 1 / 2⌋ := by
      apply Int.floor_nonneg.mpr
      nlinarith
    have h1' : (0 : ℝ) ≤ (⌊-x * 10 ^ s + 1 / 2⌋ : ℝ) / 10 ^ s := by
      apply div_nonneg _ (le_of_lt hp)
      exact_mod_cast h1
    have h2' : (0 : ℝ) ≤ (⌊y * 10 ^ s + 1 / 2⌋ : ℝ) / 10 ^ s := by
      apply div_nonneg _ (le_of_lt hp)
      exact_mod_cast h2
    linarith
  · have : -y * 10 ^ s + 1 / 2 ≤ -x * 10 ^ s + 1 / 2 := by nlinarith
    have hf : (⌊-y * 10 ^ s + 1 / 2⌋ : ℝ) ≤ (⌊-x * 10 ^ s + 1 / 2⌋ : ℝ) := by
      exact_mod_cast Int.floor_mono this
    have := (div_le_div_iff_of_pos_right hp).mpr hf
    linarith

/-- Round-half-up of a non-negative number is non-negative. -/
theorem rhu_nonneg (s : ℕ) {x : ℝ} (hx : 0 ≤ x) : 0 ≤ rhu s x := by
  have hp : (0 : ℝ) < 10 ^ s := by positivity
  unfold rhu
  rw [if_pos hx]
  apply div_nonneg _ (le_of_lt hp)
  have : (0 : ℤ) ≤ ⌊x * 10 ^ s + 1 / 2⌋ := Int.floor_nonneg.mpr (by nlinarith)
  exact_mod_cast this

/-- Evaluating `rhu` from integer bounds on the scaled argument. -/
theorem rhu_eq_of_bounds (s : ℕ) (x : ℝ) (n : ℤ) (hx : 0 ≤ x)
    (h1 : (n : ℝ) ≤ x * 10 ^ s + 1 / 2) (h2 : x * 10 ^ s + 1 / 2 < n + 1) :
    rhu s x = (n : ℝ) / 10 ^ s := by
  unfold rhu
  rw [if_pos hx]
  congr 1
  exact_mod_cast Int.floor_eq_iff.mpr ⟨h1, h2⟩

/-- `QuantLaws.calculate_expected_move(price, iv_30d, dte)` of
`quant_engine.py`: `price * iv_30d * sqrt(dte / 365)` rounded half-up to 4
decimal places, with degenerate inputs returning 0. -/
noncomputable def calculate_expected_move (price iv_30d : ℝ) (dte : ℤ) : ℝ :=
  if price ≤ 0 ∨ iv_30d < 0 ∨ dte ≤ 0 then 0
  else rhu 4 (price * iv_30d * Real.sqrt ((dte : ℝ) / 365))

/-- `QuantLaws.check_iv_natr_rule(iv_30d, atr_14_daily, close_price,
min_ratio)` of `quant_engine.py`: the IV/NATR ratio (rounded half-up to 2
decimal places) and the pass flag `ratio > min_ratio` (compared before
rounding, as in the source). -/
noncomputable def check_iv_natr_rule (iv_30d atr_14_daily close_price min_ratio : ℝ) :
    ℝ × Bool :=
  if close_price ≤ 0 ∨ atr_14_daily < 0 then (0, false)
  else if atr_14_daily / close_price * 100 ≤ 0 then (0, false)
  else
    (rhu 2 (iv_30d * 100 / (atr_14_daily / close_price * 100 * Real.sqrt 252)),
     if min_ratio < iv_30d * 100 / (atr_14_daily / close_price * 100 * Real.sqrt 252)
     then true else false)

/-! ### Claims C7 and C8 — quant-engine laws -/

/-- C7: `expectedMove` returns zero on degenerate inputs (price ≤ 0,
implied vol < 0 or DTE ≤ 0); on valid inputs it is non-negative and weakly
monotone both in implied volatility and in days-to-expiry. -/
theorem C7_expected_move_properties :
    (∀ (price iv_30d : ℝ) (dte : ℤ), price ≤ 0 ∨ iv_30d < 0 ∨ dte ≤ 0 →
      calculate_expected_move price iv_30d dte = 0) ∧
    (∀ (price iv_30d : ℝ) (dte : ℤ), 0 < price → 0 ≤ iv_30d → 0 < dte →
      0 ≤ calculate_expected_move price iv_30d dte) ∧
    (∀ (price iv iv' : ℝ) (dte : ℤ), 0 < price → 0 ≤ iv → iv ≤ iv' → 0 < dte →
      calculate_expected_move price iv dte ≤ calculate_expected_move price iv' dte) ∧
    (∀ (price iv : ℝ) (dte dte' : ℤ), 0 < price → 0 ≤ iv → 0 < dte → dte ≤ dte' →
      calculate_expected_move price iv dte ≤ calculate_expected_move price iv dte') := by
  refine ⟨?_, ?_, ?_, ?_⟩
  · intro price iv dte h
    unfold calculate_expected_move
    rw [if_pos h]
  · intro price iv dte hp hiv hd
    unfold calculate_expected_move
    rw [if_neg (by push_neg; exact ⟨hp, hiv, hd⟩)]
    exact rhu_nonneg 4 (by positivity)
  · intro price iv iv' dte hp hiv hiv' hd
    unfold calculate_expected_move
    rw [if_neg (by push_neg; exact ⟨hp, hiv, hd⟩),
      if_neg (by push_neg; exact ⟨hp, le_trans hiv hiv', hd⟩)]
    apply rhu_mono
    have hs : 0 ≤ Real.sqrt ((dte : ℝ) / 365) := Real.sqrt_nonneg _
    have := mul_le_mul_of_nonneg_left hiv' (le_of_lt hp)
    nlinarith
  · intro price iv dte dte' hp hiv hd hd'
    unfold calculate_expected_move
    rw [if_neg (by push_neg; exact ⟨hp, hiv, hd⟩),
      if_neg (by push_neg; exact ⟨hp, hiv, lt_of_lt_of_le hd hd'⟩)]
    apply rhu_mono
    have hsq : Real.sqrt ((dte : ℝ) / 365) ≤ Real.sqrt ((dte' : ℝ) / 365) := by
      apply Real.sqrt_le_sqrt
      have : (dte : ℝ) ≤ (dte' : ℝ) := by exact_mod_cast hd'
      linarith
    have hpm : 0 ≤ price * iv := mul_nonneg (le_of_lt hp) hiv
    calc price * iv * Real.sqrt ((dte : ℝ) / 365)
        ≤ price * iv * Real.sqrt ((dte' : ℝ) / 365) :=
          mul_le_mul_of_nonneg_left hsq hpm

/-- C7 (witness): the properties at concrete inputs: zero on a degenerate
price, non-negative and monotone at price 100, IV 25 percent vs 50 percent,
30 vs 45 days to expiry. -/
theorem C7_witness :
    calculate_expected_move 0 1 37 = 0 ∧
    0 ≤ calculate_expected_move 100 (1 / 4) 37 ∧
    calculate_expected_move 100 (1 / 4) 37 ≤ calculate_expected_move 100 (1 / 2) 37 ∧
    calculate_expected_move 100 (1 / 4) 30 ≤ calculate_expected_move 100 (1 / 4) 45 :=
  ⟨C7_expected_move_properties.1 0 1 37 (Or.inl le_rfl),
   C7_expected_move_properties.2.1 100 (1 / 4) 37 (by norm_num) (by norm_num) (by norm_num),
   C7_expected_move_properties.2.2.1 100 (1 / 4) (1 / 2) 37 (by norm_num) (by norm_num)
     (by norm_num) (by norm_num),
   C7_expected_move_properties.2.2.2 100 (1 / 4) 30 45 (by norm_num) (by norm_num)
     (by norm_num) (by norm_num)⟩

/-- Bounds on the square root of 252 used to evaluate the rounded ratio. -/
theorem sqrt_252_bounds : (15.8 : ℝ) < Real.sqrt 252 ∧ Real.sqrt 252 < 15.9 :=
  ⟨(Real.lt_sqrt (by norm_num)).mpr (by norm_num),
   (Real.sqrt_lt' (by norm_num)).mpr (by norm_num)⟩

/-- C8: the `efficiencyRatio` pair (rounded ratio, pass flag) is invariant
under scaling implied vol and ATR simultaneously by any positive factor, and
is not invariant under scaling the close price alone: doubling the close from
1 to 2 at iv = atr = 1 moves the rounded ratio from 0.06 to 0.13. -/
theorem C8_efficiency_ratio_scaling :
    (∀ k iv atr close minr : ℝ, 0 < k →
      check_iv_natr_rule (k * iv) (k * atr) close minr =
        check_iv_natr_rule iv atr close minr) ∧
    (check_iv_natr_rule 1 1 1 1).1 ≠ (check_iv_natr_rule 1 1 2 1).1 := by
  constructor
  · intro k iv atr close minr hk
    have hk0 : k ≠ 0 := ne_of_gt hk
    unfold check_iv_natr_rule
    by_cases h1 : close ≤ 0 ∨ atr < 0
    · have h1' : close ≤ 0 ∨ k * atr < 0 := by
        rcases h1 with h | h
        · exact Or.inl h
        · exact Or.inr (mul_neg_of_pos_of_neg hk h)
      rw [if_pos h1, if_pos h1']
    · push_neg at h1
      obtain ⟨hc, ha⟩ := h1
      have h1a : ¬ (close ≤ 0 ∨ atr < 0) := by push_neg; exact ⟨hc, ha⟩
      have h1b : ¬ (close ≤ 0 ∨ k * atr < 0) := by
        push_neg
        exact ⟨hc, mul_nonneg (le_of_lt hk) ha⟩
      rw [if_neg h1b, if_neg h1a]
      have hnatr_eq : k * atr / close * 100 = k * (atr / close * 100) := by ring
      by_cases h2 : atr / close * 100 ≤ 0
      · have h2' : k * atr / close * 100 ≤ 0 := by
          rw [hnatr_eq]
          have := mul_le_mul_of_nonneg_left h2 (le_of_lt hk)
          linarith [mul_le_mul_of_nonneg_left h2 (le_of_lt hk)]
        rw [if_pos h2', if_pos h2]
      · have h2' : ¬ (k * atr / close * 100 ≤ 0) := by
          rw [hnatr_eq]
          exact fun hcon =>
            absurd (mul_pos hk (lt_of_not_le h2)) (not_lt.mpr hcon)
        rw [if_neg h2', if_neg h2]
        have key : k * iv * 100 / (k * atr / close * 100 * Real.sqrt 252) =
            iv * 100 / (atr / close * 100 * Real.sqrt 252) := by
          rw [show k * iv * 100 = k * (iv * 100) by ring,
            show k * atr / close * 100 * Real.sqrt 252 =
              k * (atr / close * 100 * Real.sqrt 252) by ring]
          exact mul_div_mul_left _ _ hk0
        rw [key]
  · obtain ⟨hs1, hs2⟩ := sqrt_252_bounds
    have hspos : (0 : ℝ) < Real.sqrt 252 := by linarith
    have hsne : Real.sqrt 252 ≠ 0 := ne_of_gt hspos
    have eA : (check_iv_natr_rule 1 1 1 1).1 = rhu 2 (1 / Real.sqrt 252) := by
      unfold check_iv_natr_rule
      rw [if_neg (by norm_num), if_neg (by norm_num)]
      have : (1 : ℝ) * 100 / ((1 : ℝ) / 1 * 100 * Real.sqrt 252) = 1 / Real.sqrt 252 := by
        field_simp
      rw [this]
    have eB : (check_iv_natr_rule 1 1 2 1).1 = rhu 2 (2 / Real.sqrt 252) := by
      unfold check_iv_natr_rule
      rw [if_neg (by norm_num), if_neg (by norm_num)]
      have : (1 : ℝ) * 100 / ((1 : ℝ) / 2 * 100 * Real.sqrt 252) = 2 / Real.sqrt 252 := by
        field_simp
        ring
      rw [this]
    have hA : rhu 2 (1 / Real.sqrt 252) = (6 : ℤ) / 10 ^ 2 := by
      apply rhu_eq_of_bounds 2 _ 6 (by positivity)
      · have h55 : (5.5 : ℝ) * Real.sqrt 252 ≤ 100 := by nlinarith
        have : (5.5 : ℝ) ≤ 100 / Real.sqrt 252 := (le_div_iff₀ hspos).mpr (by linarith)
        rw [show (1 : ℝ) / Real.sqrt 252 * 10 ^ 2 = 100 / Real.sqrt 252 by ring]
        norm_num
        linarith
      · have : (100 : ℝ) / Real.sqrt 252 < 6.5 := (div_lt_iff₀ hspos).mpr (by nlinarith)
        rw [show (1 : ℝ) / Real.sqrt 252 * 10 ^ 2 = 100 / Real.sqrt 252 by ring]
        norm_num
        linarith
    have hB : rhu 2 (2 / Real.sqrt 252) = (13 : ℤ) / 10 ^ 2 := by
      apply rhu_eq_of_bounds 2 _ 13 (by positivity)
      · have h125 : (12.5 : ℝ) * Real.sqrt 252 ≤ 200 := by nlinarith
        have : (12.5 : ℝ) ≤ 200 / Real.sqrt 252 := (le_div_iff₀ hspos).mpr (by linarith)
        rw [show (2 : ℝ) / Real.sqrt 252 * 10 ^ 2 = 200 / Real.sqrt 252 by ring]
        norm_num
        linarith
      · have : (200 : ℝ) / Real.sqrt 252 < 13.5 := (div_lt_iff₀ hspos).mpr (by nlinarith)
        rw [show (2 : ℝ) / Real.sqrt 252 * 10 ^ 2 = 200 / Real.sqrt 252 by ring]
        norm_num
        linarith
    rw [eA, eB, hA, hB]
    norm_num

/-- C8 (witness): the invariance applied at the concrete scale factor 2 with
iv = 0.24, atr = 4.2, close = 175.5 and the default minimum ratio 1. -/
theorem C8_witness :
    check_iv_natr_rule (2 * 0.24) (2 * 4.2) 175.5 1 =
      check_iv_natr_rule 0.24 4.2 175.5 1 :=
  C8_efficiency_ratio_scaling.1 2 0.24 4.2 175.5 1 (by norm_num)

/-! ## services/options.py

Quotes carry exact rational prices and deltas; expiry dates are day numbers.
-/

/-- One option quote of the chain (`strike`, `expiry`, `delta`, `bid`, `ask`).
-/
structure OptionQuote where
  strike : ℚ
  expiry : ℤ
  delta : ℚ
  bid : ℚ
  ask : ℚ
  deriving DecidableEq, Repr

/-- An option chain: the put-side quotes (`chain["puts"]`); the call side is
never read by strike selection. -/
structure OptionChain where
  puts : List OptionQuote
  deriving DecidableEq, Repr

/-- `filter_puts_by_liquidity(puts)` of `services/options.py`: keep a quote
iff its bid is positive and `(ask - bid) / bid < 0.10`. -/
def filter_puts_by_liquidity (puts : List OptionQuote) : List OptionQuote :=
  puts.filter (fun p => decide (0 < p.bid) && decide ((p.ask - p.bid) / p.bid < 1 / 10))

/-- The delta-band membership test of `select_strike_by_delta`:
`low <= abs(delta) <= high`. -/
def inBand (low high : ℚ) (p : OptionQuote) : Bool :=
  decide (low ≤ |p.delta|) && decide (|p.delta| ≤ high)

/-- The sort key of `select_strike_by_delta`: distance of the absolute delta
from the midpoint of the target band. -/
def deltaKey (low high : ℚ) (p : OptionQuote) : ℚ :=
  |(|p.delta|) - (low + high) / 2|

/-- Python's `min(..., key=...)` on a non-empty list: the first element whose
key is minimal (a later element replaces the best only when strictly
smaller). -/
def minFirst {α : Type} (key : α → ℚ) (x : α) (xs : List α) : α :=
  xs.foldl (fun best p => if key p < key best then p else best) x

/-- The in-band survivors of the liquidity filter, in chain order. -/
def inRangePuts (chain : OptionChain) (low high : ℚ) : List OptionQuote :=
  (filter_puts_by_liquidity chain.puts).filter (inBand low high)

/-- `select_strike_by_delta(chain, (low, high))` of `services/options.py`:
liquidity filter, delta band, then `min` by distance to the band midpoint. -/
def select_strike_by_delta (chain : OptionChain) (low high : ℚ) : Option OptionQuote :=
  match inRangePuts chain low high with
  | [] => none
  | x :: xs => some (minFirst (deltaKey low high) x xs)

/-! ### `min`-by-key lemmas -/

/-- The selected element is an element of the list. -/
theorem minFirst_mem {α : Type} (key : α → ℚ) (x : α) (xs : List α) :
    minFirst key x xs ∈ x :: xs := by
  induction xs generalizing x with
  | nil => simp [minFirst]
  | cons p ps ih =>
    have step : minFirst key x (p :: ps) =
        minFirst key (if key p < key x then p else x) ps := rfl
    rw [step]
    rcases List.mem_cons.mp (ih (if key p < key x then p else x)) with h | h
    · rw [h]
      split_ifs
      · simp
      · simp
    · simp [List.mem_cons.mpr (Or.inr (List.mem_cons.mpr (Or.inr h)))]

/-- The selected element has the minimal key. -/
theorem minFirst_le {α : Type} (key : α → ℚ) (x : α) (xs : List α) :
    ∀ q ∈ x :: xs, key (minFirst key x xs) ≤ key q := by
  induction xs generalizing x with
  | nil =>
    intro q hq
    rcases List.mem_cons.mp hq with h | h
    · rw [h]; simp [minFirst]
    · cases h
  | cons p ps ih =>
    intro q hq
    have step : minFirst key x (p :: ps) =
        minFirst key (if key p < key x then p else x) ps := rfl
    rw [step]
    have hb_le_x : key (if key p < key x then p else x) ≤ key x := by
      split_ifs with h
      · exact le_of_lt h
      · exact le_rfl
    have hb_le_p : key (if key p < key x then p else x) ≤ key p := by
      split_ifs with h
      · exact le_rfl
      · exact not_lt.mp h
    have hhead := ih (if key p < key x then p else x) _ (List.mem_cons_self _ _)
    rcases List.mem_cons.mp hq with h | h
    · rw [h]; exact le_trans hhead hb_le_x
    · rcases List.mem_cons.mp h with h2 | h2
      · rw [h2]; exact le_trans hhead hb_le_p
      · exact ih _ q (List.mem_cons.mpr (Or.inr h2))

/-- The selected element is the first of the list achieving the minimal key:
`find?` for a key at most the selected one stops exactly at the selected
element (the stable tie-break of Python's `min`). -/
theorem minFirst_first {α : Type} (key : α → ℚ) (x : α) (xs : List α) :
    (x :: xs).find? (fun q => decide (key q ≤ key (minFirst key x xs))) =
      some (minFirst key x xs) := by
  induction xs generalizing x with
  | nil =>
    simp [minFirst, List.find?]
  | cons p ps ih =>
    have step : minFirst key x (p :: ps) =
        minFirst key (if key p < key x then p else x) ps := rfl
    rw [step]
    by_cases hpx : key p < key x
    · rw [if_pos hpx]
      have hmb : key (minFirst key p ps) ≤ key p :=
        minFirst_le key p ps p (List.mem_cons_self _ _)
      have hxd : ¬ (key x ≤ key (minFirst key p ps)) :=
        not_le.mpr (lt_of_le_of_lt hmb hpx)
      rw [List.find?_cons_of_neg (p := fun q => decide (key q ≤ key (minFirst key p ps)))
        _ (by simpa using hxd)]
      exact ih p
    · rw [if_neg hpx]
      have hxp : key x ≤ key p := not_lt.mp hpx
      by_cases hx : key x ≤ key (minFirst key x ps)
      · rw [List.find?_cons_of_pos (p := fun q => decide (key q ≤ key (minFirst key x ps)))
          _ (by simpa using hx)]
        have h2 := ih x
        rw [List.find?_cons_of_pos (p := fun q => decide (key q ≤ key (minFirst key x ps)))
          _ (by simpa using hx)] at h2
        exact h2
      · have hpd : ¬ (key p ≤ key (minFirst key x ps)) :=
          not_le.mpr (lt_of_lt_of_le (lt_of_not_le hx) hxp)
        rw [List.find?_cons_of_neg (p := fun q => decide (key q ≤ key (minFirst key x ps)))
          _ (by simpa using hx),
          List.find?_cons_of_neg (p := fun q => decide (key q ≤ key (minFirst key x ps)))
          _ (by simpa using hpd)]
        have h2 := ih x
        rw [List.find?_cons_of_neg (p := fun q => decide (key q ≤ key (minFirst key x ps)))
          _ (by simpa using hx)] at h2
        exact h2

/-- Membership in the filtered in-band list decodes to the three gates. -/
theorem mem_inRangePuts {chain : OptionChain} {low high : ℚ} {q : OptionQuote} :
    q ∈ inRangePuts chain low high ↔
      q ∈ chain.puts ∧ 0 < q.bid ∧ (q.ask - q.bid) / q.bid < 1 / 10 ∧
        low ≤ |q.delta| ∧ |q.delta| ≤ high := by
  unfold inRangePuts filter_puts_by_liquidity inBand
  simp only [List.mem_filter, Bool.and_eq_true, decide_eq_true_eq]
  tauto

/-- A selected quote is one of the in-band survivors. -/
theorem select_strike_mem {chain : OptionChain} {low high : ℚ} {r : OptionQuote}
    (h : select_strike_by_delta chain low high = some r) :
    r ∈ inRangePuts chain low high := by
  unfold select_strike_by_delta at h
  cases hl : inRangePuts chain low high with
  | nil => rw [hl] at h; cases h
  | cons x xs =>
    rw [hl] at h
    have := minFirst_mem (deltaKey low high) x xs
    rw [Option.some.injEq] at h
    rw [h] at this
    exact this

/-- A selected quote has the minimal key among the in-band survivors. -/
theorem select_strike_min {chain : OptionChain} {low high : ℚ} {r : OptionQuote}
    (h : select_strike_by_delta chain low high = some r) :
    ∀ q ∈ inRangePuts chain low high, deltaKey low high r ≤ deltaKey low high q := by
  unfold select_strike_by_delta at h
  cases hl : inRangePuts chain low high with
  | nil => rw [hl] at h; cases h
  | cons x xs =>
    rw [hl] at h
    rw [Option.some.injEq] at h
    intro q hq
    rw [← h]
    exact minFirst_le (deltaKey low high) x xs q hq

/-- A selected quote is the first in-band survivor achieving the minimal key. -/
theorem select_strike_first {chain : OptionChain} {low high : ℚ} {r : OptionQuote}
    (h : select_strike_by_delta chain low high = some r) :
    (inRangePuts chain low high).find?
      (fun q => decide (deltaKey low high q ≤ deltaKey low high r)) = some r := by
  unfold select_strike_by_delta at h
  cases hl : inRangePuts chain low high with
  | nil => rw [hl] at h; cases h
  | cons x xs =>
    rw [hl] at h
    rw [Option.some.injEq] at h
    rw [← h]
    exact minFirst_first (deltaKey low high) x xs

/-! ### Claim C9 — liquidity gate, delta band, stable tie-break -/

/-- C9: a quote returned by contract selection passed the liquidity gate
(bid > 0 and relative spread < 10 percent), lies in the delta band, is
closest to the band midpoint among all surviving quotes, and is the
first-listed quote achieving that minimal distance; and when exactly one put
survives both filters, that put is selected. -/
theorem C9_put_selection :
    (∀ (chain : OptionChain) (low high : ℚ) (r : OptionQuote),
      select_strike_by_delta chain low high = some r →
      r ∈ chain.puts ∧ 0 < r.bid ∧ (r.ask - r.bid) / r.bid < 1 / 10 ∧
        low ≤ |r.delta| ∧ |r.delta| ≤ high ∧
        (∀ q ∈ chain.puts, 0 < q.bid → (q.ask - q.bid) / q.bid < 1 / 10 →
          low ≤ |q.delta| → |q.delta| ≤ high →
          deltaKey low high r ≤ deltaKey low high q) ∧
        (inRangePuts chain low high).find?
          (fun q => decide (deltaKey low high q ≤ deltaKey low high r)) = some r) ∧
    (∀ (chain : OptionChain) (low high : ℚ) (p : OptionQuote),
      inRangePuts chain low high = [p] →
      select_strike_by_delta chain low high = some p) := by
  constructor
  · intro chain low high r hsel
    obtain ⟨hmem, hbid, hspread, hlo, hhi⟩ := mem_inRangePuts.mp (select_strike_mem hsel)
    refine ⟨hmem, hbid, hspread, hlo, hhi, ?_, select_strike_first hsel⟩
    intro q hq hqb hqs hql hqh
    exact select_strike_min hsel q (mem_inRangePuts.mpr ⟨hq, hqb, hqs, hql, hqh⟩)
  · intro chain low high p hone
    unfold select_strike_by_delta
    rw [hone]
    rfl

/-- C9 (witness): a two-put chain in which both quotes are liquid and equally
close to the band midpoint 0.25 (deltas -0.24 and -0.26): the earlier-listed
put is selected, and its selection satisfies the characterization. -/
theorem C9_witness :
    select_strike_by_delta
        ⟨[⟨100, 37, -(6 / 25), 1, 1⟩, ⟨95, 37, -(13 / 50), 1, 1⟩]⟩ (1 / 5) (3 / 10) =
      some ⟨100, 37, -(6 / 25), 1, 1⟩ ∧
    (⟨100, 37, -(6 / 25), 1, 1⟩ : OptionQuote) ∈
      ([⟨100, 37, -(6 / 25), 1, 1⟩, ⟨95, 37, -(13 / 50), 1, 1⟩] : List OptionQuote) :=
  ⟨by
    simp [select_strike_by_delta, inRangePuts, filter_puts_by_liquidity, inBand,
      deltaKey, minFirst, List.filter]
    norm_num [abs_of_nonneg],
   (C9_put_selection.1 ⟨[⟨100, 37, -(6 / 25), 1, 1⟩, ⟨95, 37, -(13 / 50), 1, 1⟩]⟩
     (1 / 5) (3 / 10) ⟨100, 37, -(6 / 25), 1, 1⟩ (by
      simp [select_strike_by_delta, inRangePuts, filter_puts_by_liquidity, inBand,
        deltaKey, minFirst, List.filter]
      norm_num [abs_of_nonneg])).1⟩

/-! ## services/universe.py and analysis.py

Dates are modelled as day numbers (`ℤ`). -/

/-- `hard_earnings_exclusion(earnings_date, trade_expiry, today)` of
`services/universe.py`: `true` (NO_TRADE) iff an earnings date is present and
falls between today and the expiry, both ends inclusive. -/
def hard_earnings_exclusion (earnings_date : Option ℤ) (trade_expiry today : ℤ) : Bool :=
  match earnings_date with
  | none => false
  | some e =>
    if e < today then false
    else if e > trade_expiry then false
    else true

/-- The earnings gate as an interval condition. -/
theorem hard_earnings_exclusion_some (e trade_expiry today : ℤ) :
    hard_earnings_exclusion (some e) trade_expiry today = true ↔
      today ≤ e ∧ e ≤ trade_expiry := by
  have h : hard_earnings_exclusion (some e) trade_expiry today =
      if e < today then false else if e > trade_expiry then false else true := rfl
  rw [h]
  split_ifs with h1 h2
  · simp
    omega
  · simp
    omega
  · simp
    omega

/-- The fields of `data["latest"]` read by `run_analysis` (`analysis.py`). -/
structure Latest where
  close : ℚ
  sma_50 : Option ℚ
  sma_200 : Option ℚ
  atr_14 : ℚ
  rsi_14 : ℚ
  iv_30d : ℚ
  earnings_date : Option ℤ

/-- The parsed fields of the options contract identifier
`f"{ticker}{expiry:%y%m%d}{option type}{int(strike * 1000):08d}"` built by
`run_analysis`: ticker, expiry day, the option-type flag character, and the
strike scaled by 1000 and truncated to an integer. -/
structure Contract where
  ticker : String
  expiry : ℤ
  optType : Char
  strikeCode : ℤ

/-- Python `int(...)` on a decimal: truncation toward zero. -/
noncomputable def intTrunc (x : ℝ) : ℤ :=
  if 0 ≤ x then ⌊x⌋ else -⌊-x⌋

/-- The three shapes of a pipeline result: a strategy-NONE recommendation, the
earnings NO_TRADE result (no recommendation payload at all), or a full trade
recommendation. -/
inductive PipelineOutcome where
  | strategyNone
  | noTradeEarnings
  | trade (strategy : Strategy) (contract : Contract) (strike : ℝ) (expiry : ℤ)
      (delta : ℚ) (credit : ℚ)

/-- The option-type flag of the contract identifier carried by an outcome. -/
def PipelineOutcome.contractFlag : PipelineOutcome → Option Char
  | .trade _ c _ _ _ _ => some c.optType
  | _ => none

/-- The post-gate strategy verdict of `run_analysis`: `analysisStrategy` with
the efficiency flag computed by `check_iv_natr_rule` on the snapshot fields
(`analysis.py` lines 51, 65-71). -/
noncomputable def pipelineStrategy (latest : Latest) (allows_short_put : Bool)
    (min_ratio : ℝ) : Strategy :=
  analysisStrategy latest.close latest.sma_50 latest.sma_200 latest.rsi_14
    allows_short_put
    (check_iv_natr_rule (latest.iv_30d : ℝ) (latest.atr_14 : ℝ) (latest.close : ℝ)
      min_ratio).2

/-- The synthetic fallback strike of `run_analysis` (`analysis.py` lines
102-106): `price - expectedMove` quantized to 2 places, replaced by
`price * 0.90` when non-positive, then quantized to 2 places. -/
noncomputable def fallbackStrike (latest : Latest) : ℝ :=
  rhu 2
    (if rhu 2 ((latest.close : ℝ) -
          calculate_expected_move (latest.close : ℝ) (latest.iv_30d : ℝ) 37) ≤ 0
      then (latest.close : ℝ) * (9 / 10)
      else rhu 2 ((latest.close : ℝ) -
          calculate_expected_move (latest.close : ℝ) (latest.iv_30d : ℝ) 37))

/-- The expiry the pipeline settles on: the selected quote's expiry, or
`today + 37` on the synthetic fallback (`dte = (30 + 45) // 2`). -/
def selectedExpiry (today : ℤ) (chain : OptionChain) : ℤ :=
  match select_strike_by_delta chain (1 / 5) (3 / 10) with
  | some sel => sel.expiry
  | none => today + 37

/-- `run_analysis` of `analysis.py`, from the fetched snapshot and chain:
verdict (table, trend override, efficiency gate), contract selection with the
synthetic fallback, the hard earnings exclusion, and the final payload.  The
regime flag and the configured minimum ratio are passed in; `market data` and
`regime` fetching are external collaborators.

The contract-and-earnings stage of `run_analysis`, on the result of strike
selection (`analysis.py` lines 94-122): build the contract from the selected
quote, or the synthetic fallback when no quote matched; then apply the hard
earnings exclusion. -/
noncomputable def run_analysis_post (ticker : String) (today : ℤ) (latest : Latest)
    (allows_short_put : Bool) (min_ratio : ℝ) :
    Option OptionQuote → PipelineOutcome
  | some sel =>
    if hard_earnings_exclusion latest.earnings_date sel.expiry today = true then
      .noTradeEarnings
    else
      .trade (pipelineStrategy latest allows_short_put min_ratio)
        ⟨ticker, sel.expiry, 'P', intTrunc ((sel.strike : ℝ) * 1000)⟩
        (sel.strike : ℝ) sel.expiry sel.delta ((sel.bid + sel.ask) / 2)
  | none =>
    if hard_earnings_exclusion latest.earnings_date (today + 37) today = true then
      .noTradeEarnings
    else
      .trade (pipelineStrategy latest allows_short_put min_ratio)
        ⟨ticker, today + 37, 'P', intTrunc (fallbackStrike latest * 1000)⟩
        (fallbackStrike latest) (today + 37) (-(1 / 5)) (7 / 2)

noncomputable def run_analysis (ticker : String) (today : ℤ) (latest : Latest)
    (allows_short_put : Bool) (min_ratio : ℝ) (chain : OptionChain) :
    PipelineOutcome :=
  if pipelineStrategy latest allows_short_put min_ratio = .NONE then .strategyNone
  else
    run_analysis_post ticker today latest allows_short_put min_ratio
      (select_strike_by_delta chain (1 / 5) (3 / 10))

/-! ### Claim C6 — the hard earnings exclusion -/

/-- C6: when an earnings date is present and the verdict is not NONE (the run
reaches contract selection), the pipeline returns the earnings NO_TRADE result
(no contract) precisely when the earnings date lies in the inclusive interval
from today to the selected expiry; an earnings date equal to the expiry
blocks, one day past the expiry does not. -/
theorem C6_earnings_exclusion (ticker : String) (today : ℤ) (latest : Latest)
    (allows : Bool) (minr : ℝ) (chain : OptionChain) (e : ℤ)
    (he : latest.earnings_date = some e)
    (hs : pipelineStrategy latest allows minr ≠ .NONE) :
    (run_analysis ticker today latest allows minr chain = .noTradeEarnings ↔
      today ≤ e ∧ e ≤ selectedExpiry today chain) ∧
    (e = selectedExpiry today chain → today ≤ e →
      run_analysis ticker today latest allows minr chain = .noTradeEarnings) ∧
    (e = selectedExpiry today chain + 1 →
      run_analysis ticker today latest allows minr chain ≠ .noTradeEarnings) := by
  have hiff : run_analysis ticker today latest allows minr chain = .noTradeEarnings ↔
      today ≤ e ∧ e ≤ selectedExpiry today chain := by
    unfold run_analysis
    rw [if_neg hs]
    cases hsel : select_strike_by_delta chain (1 / 5) (3 / 10) with
    | none =>
      have hse : selectedExpiry today chain = today + 37 := by
        unfold selectedExpiry
        rw [hsel]
      simp only [run_analysis_post]
      rw [hse, he]
      by_cases hx : hard_earnings_exclusion (some e) (today + 37) today = true
      · rw [if_pos hx]
        exact iff_of_true rfl ((hard_earnings_exclusion_some e (today + 37) today).mp hx)
      · rw [if_neg hx]
        exact iff_of_false (by intro h; cases h)
          (fun hc => hx ((hard_earnings_exclusion_some e (today + 37) today).mpr hc))
    | some sel =>
      have hse : selectedExpiry today chain = sel.expiry := by
        unfold selectedExpiry
        rw [hsel]
      simp only [run_analysis_post]
      rw [hse, he]
      by_cases hx : hard_earnings_exclusion (some e) sel.expiry today = true
      · rw [if_pos hx]
        exact iff_of_true rfl ((hard_earnings_exclusion_some e sel.expiry today).mp hx)
      · rw [if_neg hx]
        exact iff_of_false (by intro h; cases h)
          (fun hc => hx ((hard_earnings_exclusion_some e sel.expiry today).mpr hc))
  refine ⟨hiff, ?_, ?_⟩
  · intro h1 h2
    exact hiff.mpr ⟨h2, le_of_eq h1⟩
  · intro h1 hcon
    have := (hiff.mp hcon).2
    omega

/-- The concrete snapshot used by the C6 witness: price 100 below its 50-day
average 110 (bearish trend, so the verdict is SHORT_CALL for either value of
the efficiency flag), earnings on day 10. -/
def exLatest : Latest :=
  ⟨100, some 110, some 120, 5, 50, 1 / 5, some 10⟩

/-- For a bearish snapshot the pipeline verdict is SHORT_CALL whatever the
efficiency flag, hence never NONE. -/
theorem exLatest_strategy (allows : Bool) (minr : ℝ) :
    pipelineStrategy exLatest allows minr = .SHORT_CALL := by
  unfold pipelineStrategy
  cases hb : (check_iv_natr_rule ((exLatest.iv_30d : ℚ) : ℝ) ((exLatest.atr_14 : ℚ) : ℝ)
      ((exLatest.close : ℚ) : ℝ) minr).2 <;> cases allows <;> decide

/-- C6 (witness): the exclusion interval test at the concrete bearish
snapshot, today = 0, an empty chain (fallback expiry 37) and earnings day 10:
the run is blocked exactly because 0 ≤ 10 ≤ 37. -/
theorem C6_witness :
    run_analysis "AAPL" 0 exLatest true 1 ⟨[]⟩ = .noTradeEarnings ↔
      (0 : ℤ) ≤ 10 ∧ (10 : ℤ) ≤ selectedExpiry 0 ⟨[]⟩ :=
  (C6_earnings_exclusion "AAPL" 0 exLatest true 1 ⟨[]⟩ 10 rfl
    (by rw [exLatest_strategy]; intro h; cases h)).1

/-! ### Claim C10 — only put contracts are ever produced -/

/-- C10: whatever the pipeline inputs, the contract identifier carried by the
outcome (when there is one) has option-type flag 'P' — even for a SHORT_CALL
verdict — and a quote returned by strike selection always comes from the
chain's put side. -/
theorem C10_put_side_only :
    (∀ (ticker : String) (today : ℤ) (latest : Latest) (allows : Bool) (minr : ℝ)
      (chain : OptionChain),
      (run_analysis ticker today latest allows minr chain).contractFlag = none ∨
      (run_analysis ticker today latest allows minr chain).contractFlag = some 'P') ∧
    (∀ (chain : OptionChain) (low high : ℚ),
      (select_strike_by_delta chain low high).elim True (fun q => q ∈ chain.puts)) := by
  constructor
  · intro ticker today latest allows minr chain
    unfold run_analysis
    by_cases h : pipelineStrategy latest allows minr = .NONE
    · rw [if_pos h]
      exact Or.inl rfl
    · rw [if_neg h]
      cases hsel : select_strike_by_delta chain (1 / 5) (3 / 10) with
      | none =>
        simp only [run_analysis_post]
        by_cases hx : hard_earnings_exclusion latest.earnings_date (today + 37) today = true
        · rw [if_pos hx]; exact Or.inl rfl
        · rw [if_neg hx]; exact Or.inr rfl
      | some sel =>
        simp only [run_analysis_post]
        by_cases hx : hard_earnings_exclusion latest.earnings_date sel.expiry today = true
        · rw [if_pos hx]; exact Or.inl rfl
        · rw [if_neg hx]; exact Or.inr rfl
  · intro chain low high
    cases hsel : select_strike_by_delta chain low high with
    | none => exact True.intro
    | some r =>
      exact (mem_inRangePuts.mp (select_strike_mem hsel)).1

/-! ### Claims C1 and C2 — trend classification and the verdict flip -/

/-- C2 (counterexample): the claim says `trendState` returns bearish whenever
the 50-day average is present and the price is below it, regardless of the
200-day average.  With `price = 100`, `sma_50 = 110` and `sma_200` absent the
code returns neutral, not bearish. -/
theorem C2_counterexample :
    get_trend_state 100 (some 110) none = .neutral ∧ Trend.neutral ≠ .bearish := by
  decide

/-- C2 (amended): `trendState` is bullish iff both averages are present and the
price exceeds both; bearish iff both averages are present and the price is
below the 50-day average (the bearish test also needs the 200-day average to be
present); neutral otherwise. -/
theorem C2_amended_trend_characterization (price : ℚ) (sma_50 sma_200 : Option ℚ) :
    (get_trend_state price sma_50 sma_200 = .bullish ↔
      ∃ s50 s200, sma_50 = some s50 ∧ sma_200 = some s200 ∧ price > s50 ∧ price > s200) ∧
    (get_trend_state price sma_50 sma_200 = .bearish ↔
      ∃ s50 s200, sma_50 = some s50 ∧ sma_200 = some s200 ∧ price < s50) := by
  cases sma_50 with
  | none =>
    cases sma_200 <;> simp [get_trend_state]
  | some s50 =>
    cases sma_200 with
    | none => simp [get_trend_state]
    | some s200 =>
      constructor
      · rw [trend_some_bullish]
        constructor
        · rintro ⟨h200, h50⟩
          exact ⟨s50, s200, rfl, rfl, h50, h200⟩
        · rintro ⟨a, b, ha, hb, h50, h200⟩
          cases ha; cases hb
          exact ⟨h200, h50⟩
      · rw [trend_some_bearish]
        constructor
        · intro h
          exact ⟨s50, s200, rfl, rfl, h⟩
        · rintro ⟨a, b, ha, hb, h⟩
          cases ha; cases hb
          exact h

/-- C1 (counterexample): in the claimed scenario, flipping the ticker price
below its 50-day average is said to flip the verdict to NONE; the code instead
classifies the trend as bearish and returns SHORT_CALL. -/
theorem C1_counterexample :
    analysisStrategy 175 (some 172) (some 165) 50 true true = .SHORT_PUT ∧
    analysisStrategy 170 (some 172) (some 165) 50 true true = .SHORT_CALL ∧
    Strategy.SHORT_CALL ≠ Strategy.NONE := by
  decide

/-- C1 (amended): with trend bullish, RSI neutral, regime allowing short puts
and the efficiency gate passing, the pipeline verdict is SHORT_PUT; moving the
ticker price below its 50-day average (everything else fixed, the recomputed
efficiency flag arbitrary) makes the verdict SHORT_CALL, not NONE. -/
theorem C1_amended_verdict_flip (price price' s50 s200 rsi : ℚ) (regime ep ep' : Bool)
    (htrend : get_trend_state price (some s50) (some s200) = .bullish)
    (hrsi : get_rsi_state rsi = .neutral)
    (hreg : regime = true) (hep : ep = true)
    (hflip : price' < s50) :
    analysisStrategy price (some s50) (some s200) rsi regime ep = .SHORT_PUT ∧
    analysisStrategy price' (some s50) (some s200) rsi regime ep' = .SHORT_CALL := by
  subst hreg hep
  obtain ⟨h200, h50⟩ := trend_some_bullish.mp htrend
  constructor
  · unfold analysisStrategy
    rw [htrend, hrsi, select_strategy_bullish _ (by intro h; cases h)]
    unfold strategyOverride
    rw [if_neg (fun hc =>
      absurd (of_decide_eq_true hc.2) (not_lt.mpr (le_of_lt h50)))]
    decide
  · have htrend' : get_trend_state price' (some s50) (some s200) = .bearish :=
      trend_some_bearish.mpr hflip
    unfold analysisStrategy
    rw [htrend', select_strategy_bearish, strategyOverride_short_call,
      strategyGate_short_call]

/-- C1 (witness): the amended theorem at a concrete input: price 180 above both
averages (172, 165), RSI 50, regime allowing, efficiency passing; the flipped
price 170 sits below the 50-day average 172. -/
theorem C1_witness :
    analysisStrategy 180 (some 172) (some 165) 50 true true = .SHORT_PUT ∧
    analysisStrategy 170 (some 172) (some 165) 50 true false = .SHORT_CALL :=
  C1_amended_verdict_flip 180 170 172 165 50 true true false
    (by decide) (by decide) rfl rfl (by decide)

/-! ## watchman.py

One monitor cycle over open positions.  Quote fetching is an external
collaborator, modelled as a function `String → Option Obs` (`none` is a
`DataFetchError`: the position is skipped for this cycle).  The alert log is
the `AlertLog` table: one `(position id, trigger type)` row per alert ever
sent. -/

/-- Position lifecycle stages. -/
inductive Stage where
  | MONITORING
  | CLOSING_URGENT
  | CLOSED
  deriving DecidableEq, Repr

/-- The trigger kinds `run_watchman_cycle` can log.  `DATA_STALE` is the log
row name; its emitted event is labelled `CRITICAL_DATA_STALE` in the source,
a renaming that does not affect identity of the kind. -/
inductive TriggerKind where
  | STRIKE_TOUCH
  | DTE_21
  | STOP_LOSS
  | TAKE_PROFIT
  | ROLL_NEEDED
  | DATA_STALE
  deriving DecidableEq, Repr

/-- The `AlertLog` table: rows `(position_id, trigger_type)`. -/
abbrev AlertLog := List (ℕ × TriggerKind)

/-- A triggered-alert summary returned by a cycle, keyed the same way. -/
abbrev Event := ℕ × TriggerKind

/-- The fields of an `ActivePosition` read by `run_watchman_cycle`
(`entry_data`, `risk_rules` and the lifecycle stage, with the source's
defaults already applied: absent `short_strike`, prices default to 0,
absent `strategy` is `none`). -/
structure Position where
  id : ℕ
  ticker : String
  strategy : Option Strategy
  short_strike : ℚ
  entry_price : ℚ
  expiry : Option ℤ
  stop_loss_price : ℚ
  take_profit_price : ℚ
  lifecycle_stage : Stage
  deriving DecidableEq, Repr

/-- One fetched observation: option mark, underlying price, and whether the
quote timestamp is within the staleness window. -/
structure Obs where
  mark : ℚ
  underlying : ℚ
  fresh : Bool
  deriving DecidableEq, Repr

/-- The configuration `run_watchman_cycle` reads: the DTE alert threshold and
the two roll parameters. -/
structure WatchConfig where
  dte_alert_threshold : ℤ
  roll_itm_pct : ℚ
  roll_dte_trigger : ℤ
  deriving DecidableEq, Repr

/-- `_ensure_alert_sent(db, position_id, trigger_type)` of `watchman.py`:
`(false, log)` when a row for the pair exists, else `(true, log + new row)`. -/
def _ensure_alert_sent (log : AlertLog) (position_id : ℕ)
    (trigger_type : TriggerKind) : Bool × AlertLog :=
  if (position_id, trigger_type) ∈ log then (false, log)
  else (true, log ++ [(position_id, trigger_type)])

/-- `dte = (expiry_date - date.today()).days`, the expiry defaulting to today
when absent, as in the source. -/
def dteOf (today : ℤ) (p : Position) : ℤ :=
  p.expiry.getD today - today

/-- The guard of each trigger block of `run_watchman_cycle`, read off the
source in order: strike touch (by strategy side), the DTE alert, stop loss
and take profit (a zero price is falsy and disables the rule), the roll rule,
and data staleness. -/
def triggerCond (cfg : WatchConfig) (today : ℤ) (p : Position) (o : Obs) :
    TriggerKind → Bool
  | .STRIKE_TOUCH =>
    (decide (p.strategy = some .SHORT_PUT) && decide (o.underlying ≤ p.short_strike)) ||
      (decide (p.strategy = some .SHORT_CALL) && decide (o.underlying ≥ p.short_strike))
  | .DTE_21 => decide (dteOf today p ≤ cfg.dte_alert_threshold)
  | .STOP_LOSS => decide (p.stop_loss_price ≠ 0) && decide (o.mark ≥ p.stop_loss_price)
  | .TAKE_PROFIT =>
    decide (p.take_profit_price ≠ 0) && decide (o.mark ≤ p.take_profit_price)
  | .ROLL_NEEDED =>
    decide (p.short_strike ≠ 0) && decide (0 < p.short_strike) &&
      decide (p.short_strike < o.underlying) &&
      decide (cfg.roll_itm_pct ≤ (o.underlying - p.short_strike) / p.short_strike) &&
      decide (dteOf today p < cfg.roll_dte_trigger)
  | .DATA_STALE => !o.fresh

/-- Which trigger blocks also set the lifecycle stage to `CLOSING_URGENT` in
the source: strike touch, the DTE alert and the stop loss; take profit, the
roll rule and staleness do not. -/
def triggerUrgent : TriggerKind → Bool
  | .STRIKE_TOUCH => true
  | .DTE_21 => true
  | .STOP_LOSS => true
  | _ => false

/-- The order the trigger blocks run in the source. -/
def triggerOrder : List TriggerKind :=
  [.STRIKE_TOUCH, .DTE_21, .STOP_LOSS, .TAKE_PROFIT, .ROLL_NEEDED, .DATA_STALE]

/-- One trigger block of `run_watchman_cycle`: when the guard holds, consult
`_ensure_alert_sent`, append the event if it is the first time, and set the
stage to `CLOSING_URGENT` when the trigger is an urgent one (the stage is set
whether or not the alert was already sent, as in the source). -/
def applyTrigger (pid : ℕ) (k : TriggerKind) (cond urgent : Bool)
    (acc : Stage × List Event × AlertLog) : Stage × List Event × AlertLog :=
  if cond = true then
    ((if urgent = true then .CLOSING_URGENT else acc.1),
      acc.2.1 ++ (if (_ensure_alert_sent acc.2.2 pid k).1 = true then [(pid, k)] else []),
      (_ensure_alert_sent acc.2.2 pid k).2)
  else acc

/-- Folding the trigger blocks of a position over a list of kinds. -/
def foldTriggers (cfg : WatchConfig) (today : ℤ) (p : Position) (o : Obs)
    (ks : List TriggerKind) (acc : Stage × List Event × AlertLog) :
    Stage × List Event × AlertLog :=
  ks.foldl
    (fun acc k =>
      applyTrigger p.id k (triggerCond cfg today p o k) (triggerUrgent k) acc)
    acc

/-- Processing one position in a cycle: run the six trigger blocks in source
order, then store the new lifecycle stage. -/
def processPosition (cfg : WatchConfig) (today : ℤ) (p : Position) (o : Obs)
    (log : AlertLog) : Position × List Event × AlertLog :=
  ({p with lifecycle_stage := (foldTriggers cfg today p o triggerOrder
      (p.lifecycle_stage, [], log)).1},
   (foldTriggers cfg today p o triggerOrder (p.lifecycle_stage, [], log)).2.1,
   (foldTriggers cfg today p o triggerOrder (p.lifecycle_stage, [], log)).2.2)

/-- `run_watchman_cycle` of `watchman.py`: process every non-CLOSED position
(in order), skipping a position whose quote fetch fails; thread the alert log
through and return the updated positions, the triggered events, and the log. -/
def run_watchman_cycle (cfg : WatchConfig) (today : ℤ) (fetch : String → Option Obs) :
    List Position → AlertLog → List Position × List Event × AlertLog
  | [], log => ([], [], log)
  | p :: ps, log =>
    if p.lifecycle_stage = .CLOSED then
      ((p :: (run_watchman_cycle cfg today fetch ps log).1),
        (run_watchman_cycle cfg today fetch ps log).2.1,
        (run_watchman_cycle cfg today fetch ps log).2.2)
    else
      match fetch p.ticker with
      | none =>
        ((p :: (run_watchman_cycle cfg today fetch ps log).1),
          (run_watchman_cycle cfg today fetch ps log).2.1,
          (run_watchman_cycle cfg today fetch ps log).2.2)
      | some o =>
        ((processPosition cfg today p o log).1 ::
            (run_watchman_cycle cfg today fetch ps
              (processPosition cfg today p o log).2.2).1,
          (processPosition cfg today p o log).2.1 ++
            (run_watchman_cycle cfg today fetch ps
              (processPosition cfg today p o log).2.2).2.1,
          (run_watchman_cycle cfg today fetch ps
            (processPosition cfg today p o log).2.2).2.2)

/-! ### Bookkeeping lemmas for the trigger fold -/

/-- Appending a different row does not change a count. -/
theorem count_snoc_ne {α : Type} [BEq α] [LawfulBEq α] (l : List α) {a b : α} (h : b ≠ a) :
    (l ++ [b]).count a = l.count a := by
  simp [List.count_append, List.count_singleton, h]

/-- Appending the row itself raises its count by one. -/
theorem count_snoc_self {α : Type} [BEq α] [LawfulBEq α] (l : List α) (a : α) :
    (l ++ [a]).count a = l.count a + 1 := by
  simp [List.count_append, List.count_singleton]

/-- The stage component of one trigger block. -/
theorem applyTrigger_fst (pid : ℕ) (k : TriggerKind) (c u : Bool)
    (acc : Stage × List Event × AlertLog) :
    (applyTrigger pid k c u acc).1 =
      if (c && u) = true then .CLOSING_URGENT else acc.1 := by
  unfold applyTrigger
  cases c <;> cases u <;> simp

/-- One trigger block neither adds events nor rows for a pair already logged,
and keeps it logged. -/
theorem applyTrigger_logged {pid : ℕ} {k0 : TriggerKind} (k : TriggerKind)
    (c u : Bool) (acc : Stage × List Event × AlertLog)
    (h : (pid, k0) ∈ acc.2.2) :
    ((applyTrigger pid k c u acc).2.1.count (pid, k0) = acc.2.1.count (pid, k0)) ∧
    ((applyTrigger pid k c u acc).2.2.count (pid, k0) = acc.2.2.count (pid, k0)) ∧
    (pid, k0) ∈ (applyTrigger pid k c u acc).2.2 := by
  unfold applyTrigger _ensure_alert_sent
  by_cases hc : c = true
  · rw [if_pos hc]
    by_cases hm : (pid, k) ∈ acc.2.2
    · simp [hm, h]
    · have hne : ((pid, k) : ℕ × TriggerKind) ≠ (pid, k0) := by
        intro he
        apply hm
        rw [he]
        exact h
      simp only [if_neg hm]
      refine ⟨?_, count_snoc_ne _ hne, List.mem_append_left _ h⟩
      simp [List.count_append, List.count_singleton, hne]
  · rw [if_neg hc]
    exact ⟨rfl, rfl, h⟩

/-- A trigger block for a different kind neither adds events nor rows for the
target pair, and does not log it. -/
theorem applyTrigger_other {pid : ℕ} {k0 : TriggerKind} (k : TriggerKind)
    (c u : Bool) (acc : Stage × List Event × AlertLog)
    (hk : k ≠ k0) (h : (pid, k0) ∉ acc.2.2) :
    ((applyTrigger pid k c u acc).2.1.count (pid, k0) = acc.2.1.count (pid, k0)) ∧
    ((applyTrigger pid k c u acc).2.2.count (pid, k0) = acc.2.2.count (pid, k0)) ∧
    (pid, k0) ∉ (applyTrigger pid k c u acc).2.2 := by
  have hne : ((pid, k) : ℕ × TriggerKind) ≠ (pid, k0) := by
    intro he
    exact hk (congrArg Prod.snd he)
  unfold applyTrigger _ensure_alert_sent
  by_cases hc : c = true
  · rw [if_pos hc]
    by_cases hm : (pid, k) ∈ acc.2.2
    · simp [hm, h]
    · simp only [if_neg hm]
      refine ⟨?_, count_snoc_ne _ hne, ?_⟩
      · simp [List.count_append, List.count_singleton, hne]
      · intro hmem
        rcases List.mem_append.mp hmem with h1 | h1
        · exact h h1
        · rcases List.mem_singleton.mp h1 with h2
          exact hne h2.symm
  · rw [if_neg hc]
    exact ⟨rfl, rfl, h⟩

/-- The trigger block of the target kind, firing for the first time: one event
appended, one row appended, and the pair becomes logged. -/
theorem applyTrigger_fires {pid : ℕ} {k0 : TriggerKind} (c u : Bool)
    (acc : Stage × List Event × AlertLog)
    (hc : c = true) (h : (pid, k0) ∉ acc.2.2) :
    ((applyTrigger pid k0 c u acc).2.1.count (pid, k0) =
      acc.2.1.count (pid, k0) + 1) ∧
    ((applyTrigger pid k0 c u acc).2.2.count (pid, k0) =
      acc.2.2.count (pid, k0) + 1) ∧
    (pid, k0) ∈ (applyTrigger pid k0 c u acc).2.2 := by
  unfold applyTrigger _ensure_alert_sent
  rw [if_pos hc]
  simp only [if_neg h]
  refine ⟨?_, count_snoc_self _ _, ?_⟩
  · simp [List.count_append, List.count_singleton]
  · exact List.mem_append_right _ (List.mem_singleton.mpr rfl)

/-- The trigger block of the target kind with its guard false: no change, the
pair stays unlogged. -/
theorem applyTrigger_no_fire {pid : ℕ} {k0 : TriggerKind} (u : Bool)
    (acc : Stage × List Event × AlertLog) (h : (pid, k0) ∉ acc.2.2) :
    ((applyTrigger pid k0 false u acc).2.1.count (pid, k0) =
      acc.2.1.count (pid, k0)) ∧
    ((applyTrigger pid k0 false u acc).2.2.count (pid, k0) =
      acc.2.2.count (pid, k0)) ∧
    (pid, k0) ∉ (applyTrigger pid k0 false u acc).2.2 := by
  unfold applyTrigger
  simp [h]

/-- The final stage of the fold: urgent as soon as one urgent trigger guard
holds, otherwise the incoming stage. -/
theorem foldTriggers_stage (cfg : WatchConfig) (today : ℤ) (p : Position) (o : Obs)
    (ks : List TriggerKind) :
    ∀ acc : Stage × List Event × AlertLog,
      (foldTriggers cfg today p o ks acc).1 =
        if ks.any (fun k => triggerCond cfg today p o k && triggerUrgent k) then
          Stage.CLOSING_URGENT else acc.1 := by
  induction ks with
  | nil =>
    intro acc
    simp [foldTriggers]
  | cons k ks ih =>
    intro acc
    have hstep : foldTriggers cfg today p o (k :: ks) acc =
        foldTriggers cfg today p o ks
          (applyTrigger p.id k (triggerCond cfg today p o k) (triggerUrgent k) acc) := rfl
    rw [hstep, ih, List.any_cons, applyTrigger_fst]
    cases hck : (triggerCond cfg today p o k && triggerUrgent k) <;> simp

/-- Folding over any kinds with the target pair already logged: no new event,
no new row, still logged. -/
theorem foldTriggers_logged (cfg : WatchConfig) (today : ℤ) (p : Position) (o : Obs)
    (k0 : TriggerKind) (ks : List TriggerKind) :
    ∀ acc : Stage × List Event × AlertLog, (p.id, k0) ∈ acc.2.2 →
      ((foldTriggers cfg today p o ks acc).2.1.count (p.id, k0) =
        acc.2.1.count (p.id, k0)) ∧
      ((foldTriggers cfg today p o ks acc).2.2.count (p.id, k0) =
        acc.2.2.count (p.id, k0)) ∧
      (p.id, k0) ∈ (foldTriggers cfg today p o ks acc).2.2 := by
  induction ks with
  | nil =>
    intro acc h
    exact ⟨rfl, rfl, h⟩
  | cons k ks ih =>
    intro acc h
    have hstep : foldTriggers cfg today p o (k :: ks) acc =
        foldTriggers cfg today p o ks
          (applyTrigger p.id k (triggerCond cfg today p o k) (triggerUrgent k) acc) := rfl
    obtain ⟨e1, e2, m⟩ :=
      applyTrigger_logged k (triggerCond cfg today p o k) (triggerUrgent k) acc h
    obtain ⟨f1, f2, fm⟩ := ih _ m
    rw [hstep]
    exact ⟨f1.trans e1, f2.trans e2, fm⟩

/-- Folding over kinds that contain the target kind, with its guard holding
and the pair not yet logged: exactly one new event and one new row. -/
theorem foldTriggers_fires (cfg : WatchConfig) (today : ℤ) (p : Position) (o : Obs)
    (k0 : TriggerKind) (ks : List TriggerKind) :
    ∀ acc : Stage × List Event × AlertLog, (p.id, k0) ∉ acc.2.2 → k0 ∈ ks →
      triggerCond cfg today p o k0 = true →
      ((foldTriggers cfg today p o ks acc).2.1.count (p.id, k0) =
        acc.2.1.count (p.id, k0) + 1) ∧
      ((foldTriggers cfg today p o ks acc).2.2.count (p.id, k0) =
        acc.2.2.count (p.id, k0) + 1) ∧
      (p.id, k0) ∈ (foldTriggers cfg today p o ks acc).2.2 := by
  induction ks with
  | nil =>
    intro acc h hk
    cases hk
  | cons k ks ih =>
    intro acc h hk hc
    have hstep : foldTriggers cfg today p o (k :: ks) acc =
        foldTriggers cfg today p o ks
          (applyTrigger p.id k (triggerCond cfg today p o k) (triggerUrgent k) acc) := rfl
    rw [hstep]
    by_cases hkk : k = k0
    · subst hkk
      obtain ⟨e1, e2, m⟩ := applyTrigger_fires (triggerCond cfg today p o k)
        (triggerUrgent k) acc hc h
      obtain ⟨f1, f2, fm⟩ := foldTriggers_logged cfg today p o k ks _ m
      exact ⟨f1.trans e1, f2.trans e2, fm⟩
    · obtain ⟨e1, e2, m⟩ :=
        applyTrigger_other k (triggerCond cfg today p o k) (triggerUrgent k) acc hkk h
      have hk' : k0 ∈ ks := by
        rcases List.mem_cons.mp hk with h1 | h1
        · exact absurd h1.symm hkk
        · exact h1
      obtain ⟨f1, f2, fm⟩ := ih _ m hk' hc
      exact ⟨f1.trans (by rw [e1]), f2.trans (by rw [e2]), fm⟩

/-- Folding with the target guard false and the pair not logged: no event, no
row, still not logged. -/
theorem foldTriggers_no_fire (cfg : WatchConfig) (today : ℤ) (p : Position) (o : Obs)
    (k0 : TriggerKind) (ks : List TriggerKind) :
    ∀ acc : Stage × List Event × AlertLog, (p.id, k0) ∉ acc.2.2 →
      triggerCond cfg today p o k0 = false →
      ((foldTriggers cfg today p o ks acc).2.1.count (p.id, k0) =
        acc.2.1.count (p.id, k0)) ∧
      ((foldTriggers cfg today p o ks acc).2.2.count (p.id, k0) =
        acc.2.2.count (p.id, k0)) ∧
      (p.id, k0) ∉ (foldTriggers cfg today p o ks acc).2.2 := by
  induction ks with
  | nil =>
    intro acc h hc
    exact ⟨rfl, rfl, h⟩
  | cons k ks ih =>
    intro acc h hc
    have hstep : foldTriggers cfg today p o (k :: ks) acc =
        foldTriggers cfg today p o ks
          (applyTrigger p.id k (triggerCond cfg today p o k) (triggerUrgent k) acc) := rfl
    rw [hstep]
    by_cases hkk : k = k0
    · subst hkk
      have := @applyTrigger_no_fire p.id k (triggerUrgent k) acc h
      rw [← hc] at this
      obtain ⟨e1, e2, m⟩ := this
      obtain ⟨f1, f2, fm⟩ := ih _ m hc
      exact ⟨f1.trans e1, f2.trans e2, fm⟩
    · obtain ⟨e1, e2, m⟩ :=
        applyTrigger_other k (triggerCond cfg today p o k) (triggerUrgent k) acc hkk h
      obtain ⟨f1, f2, fm⟩ := ih _ m hc
      exact ⟨f1.trans e1, f2.trans e2, fm⟩

/-- The stage after processing a position: urgent exactly when one of the
three urgent guards (strike touch, DTE, stop loss) holds. -/
theorem processPosition_stage (cfg : WatchConfig) (today : ℤ) (p : Position)
    (o : Obs) (log : AlertLog) :
    (processPosition cfg today p o log).1.lifecycle_stage =
      if (triggerCond cfg today p o .STRIKE_TOUCH ||
          triggerCond cfg today p o .DTE_21 ||
          triggerCond cfg today p o .STOP_LOSS) = true then Stage.CLOSING_URGENT
      else p.lifecycle_stage := by
  unfold processPosition
  simp only
  rw [foldTriggers_stage]
  simp [triggerOrder, triggerUrgent, List.any_cons, List.any_nil, or_assoc]

/-- Every trigger kind appears in the source's block order. -/
theorem mem_triggerOrder (k : TriggerKind) : k ∈ triggerOrder := by
  cases k <;> simp [triggerOrder]

/-- A first-time firing trigger emits exactly one event and adds exactly one
log row for its pair. -/
theorem processPosition_fires (cfg : WatchConfig) (today : ℤ) (p : Position)
    (o : Obs) (log : AlertLog) (k : TriggerKind)
    (hnot : (p.id, k) ∉ log) (hc : triggerCond cfg today p o k = true) :
    (processPosition cfg today p o log).2.1.count (p.id, k) = 1 ∧
    (processPosition cfg today p o log).2.2.count (p.id, k) =
      log.count (p.id, k) + 1 ∧
    (p.id, k) ∈ (processPosition cfg today p o log).2.2 := by
  obtain ⟨f1, f2, fm⟩ := foldTriggers_fires cfg today p o k triggerOrder
    (p.lifecycle_stage, [], log) hnot (mem_triggerOrder k) hc
  exact ⟨by simpa using f1, by simpa using f2, fm⟩

/-- A trigger whose pair is already logged emits nothing and adds no row. -/
theorem processPosition_logged (cfg : WatchConfig) (today : ℤ) (p : Position)
    (o : Obs) (log : AlertLog) (k : TriggerKind) (hmem : (p.id, k) ∈ log) :
    (processPosition cfg today p o log).2.1.count (p.id, k) = 0 ∧
    (processPosition cfg today p o log).2.2.count (p.id, k) =
      log.count (p.id, k) ∧
    (p.id, k) ∈ (processPosition cfg today p o log).2.2 := by
  obtain ⟨f1, f2, fm⟩ := foldTriggers_logged cfg today p o k triggerOrder
    (p.lifecycle_stage, [], log) hmem
  exact ⟨by simpa using f1, by simpa using f2, fm⟩

/-- A trigger whose guard is false emits nothing and adds no row. -/
theorem processPosition_no_fire (cfg : WatchConfig) (today : ℤ) (p : Position)
    (o : Obs) (log : AlertLog) (k : TriggerKind)
    (hnot : (p.id, k) ∉ log) (hc : triggerCond cfg today p o k = false) :
    (processPosition cfg today p o log).2.1.count (p.id, k) = 0 ∧
    (processPosition cfg today p o log).2.2.count (p.id, k) =
      log.count (p.id, k) ∧
    (p.id, k) ∉ (processPosition cfg today p o log).2.2 := by
  obtain ⟨f1, f2, fm⟩ := foldTriggers_no_fire cfg today p o k triggerOrder
    (p.lifecycle_stage, [], log) hnot hc
  exact ⟨by simpa using f1, by simpa using f2, fm⟩

/-- A one-position cycle with a successful fetch is exactly one
`processPosition`. -/
theorem run_watchman_cycle_singleton (cfg : WatchConfig) (today : ℤ)
    (fetch : String → Option Obs) (p : Position) (log : AlertLog) (o : Obs)
    (hstage : p.lifecycle_stage ≠ .CLOSED) (hf : fetch p.ticker = some o) :
    run_watchman_cycle cfg today fetch [p] log =
      ([(processPosition cfg today p o log).1],
        (processPosition cfg today p o log).2.1,
        (processPosition cfg today p o log).2.2) := by
  unfold run_watchman_cycle
  rw [if_neg hstage, hf]
  simp [run_watchman_cycle]

/-! ### Claim C3 — at-most-once alert delivery across cycles -/

/-- C3: running two consecutive monitor cycles over a position whose trigger
guard for kind `k` holds (both cycles see the same observation), starting from
an empty alert log, leaves exactly one log row for `(position id, k)` and
emits exactly one `k`-event for the position across the two cycles. -/
theorem C3_alert_idempotency (cfg : WatchConfig) (today : ℤ) (p : Position)
    (o : Obs) (k : TriggerKind) (hstage : p.lifecycle_stage ≠ .CLOSED)
    (hc : triggerCond cfg today p o k = true) :
    (run_watchman_cycle cfg today (fun _ => some o)
        (run_watchman_cycle cfg today (fun _ => some o) [p] []).1
        (run_watchman_cycle cfg today (fun _ => some o) [p] []).2.2).2.2.count
      (p.id, k) = 1 ∧
    ((run_watchman_cycle cfg today (fun _ => some o) [p] []).2.1 ++
      (run_watchman_cycle cfg today (fun _ => some o)
        (run_watchman_cycle cfg today (fun _ => some o) [p] []).1
        (run_watchman_cycle cfg today (fun _ => some o) [p] []).2.2).2.1).count
      (p.id, k) = 1 := by
  have h1 := run_watchman_cycle_singleton cfg today (fun _ => some o) p [] o hstage rfl
  obtain ⟨e1, e2, m1⟩ := processPosition_fires cfg today p o [] k (List.not_mem_nil _) hc
  have hst1 : (processPosition cfg today p o []).1.lifecycle_stage ≠ .CLOSED := by
    rw [processPosition_stage]
    split_ifs
    · intro hcon; cases hcon
    · exact hstage
  have h2 := run_watchman_cycle_singleton cfg today (fun _ => some o)
    (processPosition cfg today p o []).1 (processPosition cfg today p o []).2.2 o
    hst1 rfl
  rw [h1, h2]
  dsimp only
  obtain ⟨g1, g2, gm⟩ := processPosition_logged cfg today
    (processPosition cfg today p o []).1 o (processPosition cfg today p o []).2.2 k m1
  have hid : (processPosition cfg today p o []).1.id = p.id := rfl
  rw [hid] at g1 g2
  constructor
  · rw [g2, e2]
    simp
  · rw [List.count_append, e1, g1]

/-- The concrete monitoring scenario for witnesses: a SHORT_PUT position with
strike 170, stop-loss price 12 and take-profit price 2, 30 days to expiry; the
observation has mark 12 (at the stop) and underlying 180 (above the strike). -/
def wCfg : WatchConfig := ⟨21, 1, 14⟩

def wPos : Position := ⟨1, "AAPL", some .SHORT_PUT, 170, 4, some 30, 12, 2, .MONITORING⟩

def wObs : Obs := ⟨12, 180, true⟩

/-- C3 (witness): the stop-loss trigger (mark 12 at the stop price 12) across
two cycles from an empty log: one row, one event. -/
theorem C3_witness :
    (run_watchman_cycle wCfg 0 (fun _ => some wObs)
        (run_watchman_cycle wCfg 0 (fun _ => some wObs) [wPos] []).1
        (run_watchman_cycle wCfg 0 (fun _ => some wObs) [wPos] []).2.2).2.2.count
      (wPos.id, TriggerKind.STOP_LOSS) = 1 ∧
    ((run_watchman_cycle wCfg 0 (fun _ => some wObs) [wPos] []).2.1 ++
      (run_watchman_cycle wCfg 0 (fun _ => some wObs)
        (run_watchman_cycle wCfg 0 (fun _ => some wObs) [wPos] []).1
        (run_watchman_cycle wCfg 0 (fun _ => some wObs) [wPos] []).2.2).2.1).count
      (wPos.id, TriggerKind.STOP_LOSS) = 1 :=
  C3_alert_idempotency wCfg 0 wPos wObs .STOP_LOSS (by decide) (by decide)

/-! ### Claim C4 — lifecycle transitions of one cycle -/

/-- C4: a cycle never sets CLOSED (a processed position is non-CLOSED and
stays so); a take-profit firing with no urgent trigger leaves the stage
unchanged; a strike-touch, DTE or stop-loss firing sets CLOSING_URGENT. -/
theorem C4_lifecycle_stage (cfg : WatchConfig) (today : ℤ) (p : Position)
    (o : Obs) (log : AlertLog) (hstage : p.lifecycle_stage ≠ .CLOSED) :
    ((processPosition cfg today p o log).1.lifecycle_stage ≠ .CLOSED) ∧
    (triggerCond cfg today p o .TAKE_PROFIT = true →
      triggerCond cfg today p o .STRIKE_TOUCH = false →
      triggerCond cfg today p o .DTE_21 = false →
      triggerCond cfg today p o .STOP_LOSS = false →
      (processPosition cfg today p o log).1.lifecycle_stage = p.lifecycle_stage) ∧
    (triggerCond cfg today p o .STRIKE_TOUCH = true →
      (processPosition cfg today p o log).1.lifecycle_stage = .CLOSING_URGENT) ∧
    (triggerCond cfg today p o .DTE_21 = true →
      (processPosition cfg today p o log).1.lifecycle_stage = .CLOSING_URGENT) ∧
    (triggerCond cfg today p o .STOP_LOSS = true →
      (processPosition cfg today p o log).1.lifecycle_stage = .CLOSING_URGENT) := by
  rw [processPosition_stage] at *
  refine ⟨?_, ?_, ?_, ?_, ?_⟩
  · split_ifs
    · intro hcon; cases hcon
    · exact hstage
  · intro _ h1 h2 h3
    rw [h1, h2, h3]
    simp
  · intro h1
    rw [h1]
    simp
  · intro h1
    rw [h1]
    simp
  · intro h1
    rw [h1]
    simp

/-- The observation for the C4 witness: underlying 160 at or below the short
strike 170, so the strike-touch guard holds. -/
def wObs2 : Obs := ⟨5, 160, true⟩

/-- C4 (witness): a strike touch at the concrete position forces
CLOSING_URGENT. -/
theorem C4_witness :
    (processPosition wCfg 0 wPos wObs2 []).1.lifecycle_stage = .CLOSING_URGENT :=
  (C4_lifecycle_stage wCfg 0 wPos wObs2 [] (by decide)).2.2.1 (by decide)

/-! ### Claim C5 — the roll trigger's guard -/

/-- The concrete counterexample data: a SHORT_CALL position 10 percent in the
money with 5 days to expiry, roll thresholds 3 percent and 14 days. -/
def rollCfg : WatchConfig := ⟨0, 3 / 100, 14⟩

def rollPos : Position := ⟨2, "TSLA", some .SHORT_CALL, 100, 5, some 5, 0, 0, .MONITORING⟩

def rollObs : Obs := ⟨1, 110, true⟩

/-- C5 (counterexample): the claim allows ROLL_NEEDED only for SHORT_PUT
positions; the code fires it for this SHORT_CALL position (strike 100,
underlying 110, DTE 5 < 14, ITM ratio 10 percent ≥ 3 percent). -/
theorem C5_counterexample :
    (processPosition rollCfg 0 rollPos rollObs []).2.1.count
      (rollPos.id, TriggerKind.ROLL_NEEDED) = 1 ∧
    rollPos.strategy ≠ some .SHORT_PUT := by
  constructor
  · have hc : triggerCond rollCfg 0 rollPos rollObs .ROLL_NEEDED = true := by
      simp [triggerCond, rollPos, rollObs, rollCfg, dteOf]
      norm_num
    exact (processPosition_fires rollCfg 0 rollPos rollObs [] .ROLL_NEEDED
      (List.not_mem_nil _) hc).1
  · simp [rollPos]

/-- C5 (amended): for a pair not yet logged, ROLL_NEEDED fires (emits its
event) iff the short strike is positive, the underlying is above it, the
in-the-money ratio reaches the roll threshold, and the DTE is strictly below
the roll DTE threshold — for any strategy, not only SHORT_PUT. -/
theorem C5_amended_roll_trigger (cfg : WatchConfig) (today : ℤ) (p : Position)
    (o : Obs) (log : AlertLog)
    (hlog : (p.id, TriggerKind.ROLL_NEEDED) ∉ log) :
    (processPosition cfg today p o log).2.1.count (p.id, TriggerKind.ROLL_NEEDED) = 1 ↔
      (0 < p.short_strike ∧ p.short_strike < o.underlying ∧
        cfg.roll_itm_pct ≤ (o.underlying - p.short_strike) / p.short_strike ∧
        dteOf today p < cfg.roll_dte_trigger) := by
  by_cases hc : triggerCond cfg today p o .ROLL_NEEDED = true
  · apply iff_of_true
      (processPosition_fires cfg today p o log .ROLL_NEEDED hlog hc).1
    have hc' := hc
    simp only [triggerCond, Bool.and_eq_true, decide_eq_true_eq] at hc'
    exact ⟨hc'.1.1.1.2, hc'.1.1.2, hc'.1.2, hc'.2⟩
  · have hcf : triggerCond cfg today p o .ROLL_NEEDED = false := by
      rw [← Bool.not_eq_true]
      exact hc
    apply iff_of_false
    · rw [(processPosition_no_fire cfg today p o log .ROLL_NEEDED hlog hcf).1]
      omega
    · rintro ⟨h1, h2, h3, h4⟩
      apply hc
      simp only [triggerCond, Bool.and_eq_true, decide_eq_true_eq]
      exact ⟨⟨⟨⟨ne_of_gt h1, h1⟩, h2⟩, h3⟩, h4⟩

/-- C5 (witness): the amended guard characterization at the concrete
SHORT_CALL scenario with an empty log. -/
theorem C5_witness :
    (processPosition rollCfg 0 rollPos rollObs []).2.1.count
        (rollPos.id, TriggerKind.ROLL_NEEDED) = 1 ↔
      (0 < rollPos.short_strike ∧ rollPos.short_strike < rollObs.underlying ∧
        rollCfg.roll_itm_pct ≤
          (rollObs.underlying - rollPos.short_strike) / rollPos.short_strike ∧
        dteOf 0 rollPos < rollCfg.roll_dte_trigger) :=
  C5_amended_roll_trigger rollCfg 0 rollPos rollObs [] (List.not_mem_nil _)

end AiAdvisor
